/-
  Verification of the py-mono agent runtime against its specification.

  Shallow embedding of:
  * `py_agent_core/message_queue.py`  (MessageQueue)
  * `py_agent_core/registry.py`       (ToolRegistry)
  * `pig_agent_core/agent.py`         (Agent.run)
  * `pig_agent_core/session.py`       (SessionTree / Session, save / load / compact)
  * `py_agent_core/context.py`        (ContextManager)
  * `pig_coding_agent/file_reference.py` (FileReferenceParser.resolve_file)
  * `py_messenger/bot.py`             (MessengerBot.handle_message)

  Python dicts are modelled as association lists in insertion order (matching
  CPython's ordered dicts); uuid4 / utcnow are modelled as explicitly supplied
  fresh identifiers and timestamps; exceptions are modelled with `Except`.
-/
import Mathlib

namespace PyMono

/-! ## Message queue (`py_agent_core/message_queue.py`) -/

inductive MessageType where
  | steering
  | followup
deriving DecidableEq, Repr

structure QueuedMessage where
  content : String
  type : MessageType
deriving DecidableEq, Repr

/-- Drain mode strings `"one-at-a-time"` / `"all"`. -/
inductive DrainMode where
  | oneAtATime
  | all
deriving DecidableEq, Repr

structure MessageQueue where
  queue : List QueuedMessage
  steering_mode : DrainMode
  followup_mode : DrainMode
deriving DecidableEq, Repr

/-- `MessageQueue.__init__`: empty queue, both modes default to one-at-a-time. -/
def MessageQueue.init : MessageQueue :=
  { queue := [], steering_mode := .oneAtATime, followup_mode := .oneAtATime }

def MessageQueue.add_steering (q : MessageQueue) (message : String) : MessageQueue :=
  { q with queue := q.queue ++ [{ content := message, type := .steering }] }

def MessageQueue.add_followup (q : MessageQueue) (message : String) : MessageQueue :=
  { q with queue := q.queue ++ [{ content := message, type := .followup }] }

/-- `get_steering_messages`: removes every steering message from the queue,
then returns either the head (one-at-a-time mode) or all of them. -/
def MessageQueue.get_steering_messages (q : MessageQueue) :
    List QueuedMessage × MessageQueue :=
  let steering := q.queue.filter (fun m => m.type == MessageType.steering)
  let q' := { q with queue := q.queue.filter (fun m => !(m.type == MessageType.steering)) }
  let ret :=
    if q.steering_mode = DrainMode.oneAtATime then
      match steering with
      | [] => steering
      | s :: _ => [s]
    else steering
  (ret, q')

/-- `get_followup_messages`: mirror image of `get_steering_messages`. -/
def MessageQueue.get_followup_messages (q : MessageQueue) :
    List QueuedMessage × MessageQueue :=
  let followup := q.queue.filter (fun m => m.type == MessageType.followup)
  let q' := { q with queue := q.queue.filter (fun m => !(m.type == MessageType.followup)) }
  let ret :=
    if q.followup_mode = DrainMode.oneAtATime then
      match followup with
      | [] => followup
      | s :: _ => [s]
    else followup
  (ret, q')

def MessageQueue.has_steering (q : MessageQueue) : Bool :=
  q.queue.any (fun m => m.type == MessageType.steering)

def MessageQueue.has_followup (q : MessageQueue) : Bool :=
  q.queue.any (fun m => m.type == MessageType.followup)

/-! ## Tool registry (`py_agent_core/registry.py`) and agent loop
(`pig_agent_core/agent.py`)

Tool call arguments arrive as a JSON object string; the loop parses them with
`json.loads` before dispatch.  Claims C1/C2/C7/C10 do not exercise the JSON
parser, so arguments are carried already parsed, as a string-keyed map. -/

def Args := List (String × String)
deriving DecidableEq, Repr

/-- Provider tool call in the uniform shape
`{id, type:"function", function:{name, arguments}}`. -/
structure ToolCall where
  id : String
  name : String
  args : Args
deriving DecidableEq, Repr

/-- Provider response: `content` plus optional `tool_calls`
(the empty list models a falsy / absent `tool_calls`). -/
structure Response where
  content : String
  tool_calls : List ToolCall
deriving DecidableEq, Repr

/-- `metadata` attached to a history `Message` by `Agent.run`. -/
inductive MsgMeta where
  | none
  | toolCalls (calls : List ToolCall)
  | toolMsg (tool_call_id : String) (name : String)
deriving DecidableEq, Repr

structure Msg where
  role : String
  content : String
  meta : MsgMeta
deriving DecidableEq, Repr

/-- A registered tool: its name and its body.  The body either returns the
`str()` of its result or raises (`Except.error` carries the exception text). -/
structure Tool where
  name : String
  exec : Args → Except String String

/-- `ToolRegistry` is a name-keyed dict; `register` overwrites, so lookups
take the entry for the name (modelled as an ordered association list). -/
def ToolRegistry := List Tool

def ToolRegistry.get (r : ToolRegistry) (name : String) : Option Tool :=
  List.find? (fun t => t.name == name) r

/-- `ToolRegistry.execute`: `KeyError(f"Tool '{name}' not found in registry")`
for an unknown name, otherwise run the tool.  The string carried on the
unknown-name error is Python's `str()` of that `KeyError`. -/
def ToolRegistry.execute (r : ToolRegistry) (name : String) (args : Args) :
    Except String String :=
  match r.get name with
  | Option.none => Except.error ("\"Tool '" ++ name ++ "' not found in registry\"")
  | Option.some t => t.exec args

/-- Agent configuration (constructor arguments of `Agent`). -/
structure AgentCfg where
  max_iterations : Nat
  registry : ToolRegistry
  on_tool_start : Option (String → Args → Except String Unit)
  on_tool_end : Option (String → String → Except String Unit)

/-- The LLM, modelled as a deterministic oracle: the `n`-th `llm.chat` call of
the process returns `provider n`. -/
def Provider := Nat → Response

/-- Mutable agent state touched by `Agent.run`: the history, the shared
message queue, and the number of `llm.chat` calls made so far. -/
structure AgentSt where
  history : List Msg
  queue : MessageQueue
  calls : Nat
deriving DecidableEq, Repr

/-- One `tool_results` record built inside the tool-call loop. -/
structure ToolResultRec where
  tool_call_id : String
  name : String
  content : String
deriving DecidableEq, Repr

/-- `if self.on_tool_start: self.on_tool_start(tool_name, tool_args)`. -/
def startHookRun (cfg : AgentCfg) (tc : ToolCall) : Except String Unit :=
  match cfg.on_tool_start with
  | Option.some f => f tc.name tc.args
  | Option.none => Except.ok ()

/-- `if self.on_tool_end: self.on_tool_end(tool_name, result)`. -/
def endHookRun (cfg : AgentCfg) (name result : String) : Except String Unit :=
  match cfg.on_tool_end with
  | Option.some f => f name result
  | Option.none => Except.ok ()

/-- Body of the `for tool_call in response.tool_calls` loop for one call.

`on_tool_start` runs *outside* the `try:` block (agent.py lines 114-117), so
an exception it raises propagates.  `registry.execute` and `on_tool_end` run
inside; an exception there appends `"Error: {e}"` to `tool_results` — note
that when `on_tool_end` raises, the success record has already been appended,
so the call yields two records. -/
def execToolCall (cfg : AgentCfg) (tc : ToolCall) :
    Except String (List ToolResultRec) :=
  match startHookRun cfg tc with
  | Except.error e => Except.error e
  | Except.ok _ =>
    match cfg.registry.execute tc.name tc.args with
    | Except.ok result =>
      match endHookRun cfg tc.name result with
      | Except.ok _ => Except.ok [⟨tc.id, tc.name, result⟩]
      | Except.error e =>
          Except.ok [⟨tc.id, tc.name, result⟩, ⟨tc.id, tc.name, "Error: " ++ e⟩]
    | Except.error e => Except.ok [⟨tc.id, tc.name, "Error: " ++ e⟩]

/-- The whole tool batch; a propagating exception discards the partial
`tool_results` list (nothing has been appended to history yet). -/
def execBatch (cfg : AgentCfg) : List ToolCall → Except String (List ToolResultRec)
  | [] => Except.ok []
  | tc :: rest =>
    match execToolCall cfg tc with
    | Except.error e => Except.error e
    | Except.ok rs =>
      match execBatch cfg rest with
      | Except.error e => Except.error e
      | Except.ok rest' => Except.ok (rs ++ rest')

/-- After a successful batch: append the assistant message carrying the tool
calls, then the tool result messages, then (if `check_queue`) drain steering
messages and append each as a `user` message. -/
def batchResultState (check_queue : Bool) (response : Response)
    (results : List ToolResultRec) (st : AgentSt) : AgentSt :=
  let st : AgentSt :=
    { st with history := st.history ++
        [⟨"assistant", response.content, MsgMeta.toolCalls response.tool_calls⟩] ++
        results.map (fun r => ⟨"tool", r.content, MsgMeta.toolMsg r.tool_call_id r.name⟩) }
  if check_queue ∧ st.queue.has_steering then
    let drained := st.queue.get_steering_messages
    { st with
      queue := drained.2,
      history := st.history ++ drained.1.map (fun m => ⟨"user", m.content, MsgMeta.none⟩) }
  else st

/-- One tool-calls iteration of the loop body, up to the `continue`. -/
def batchStep (cfg : AgentCfg) (check_queue : Bool) (response : Response)
    (st : AgentSt) : Except String AgentSt :=
  match execBatch cfg response.tool_calls with
  | Except.error e => Except.error e
  | Except.ok results => Except.ok (batchResultState check_queue response results st)

/-- The `while iterations < self.max_iterations` loop; the fuel is the number
of remaining iterations.  Result `(st, some response)` is a tool-free
completion; `(st, none)` means the iteration budget ran out. -/
def runLoop (cfg : AgentCfg) (provider : Provider) (check_queue : Bool) :
    Nat → AgentSt → Except String (AgentSt × Option Response)
  | 0, st => Except.ok (st, Option.none)
  | fuel + 1, st =>
    let response := provider st.calls
    let st : AgentSt := { st with calls := st.calls + 1 }
    if response.tool_calls.isEmpty then
      Except.ok
        ({ st with history := st.history ++ [⟨"assistant", response.content, MsgMeta.none⟩] },
         Option.some response)
    else
      match batchStep cfg check_queue response st with
      | Except.error e => Except.error e
      | Except.ok st' => runLoop cfg provider check_queue fuel st'

/-- `Agent.run`, with explicit fuel for the recursive follow-up chaining (each
recursion strictly shrinks the queue, so `queue.length + 1` fuel always
suffices; see `Agent.run`).  Besides the final state and response it returns
the list of user texts each (possibly nested) `run` invocation was entered
with. -/
def runFuel (cfg : AgentCfg) (provider : Provider) :
    Nat → String → Bool → AgentSt → Except String (AgentSt × Response × List String)
  | 0, _, _, _ => Except.error "insufficient follow-up fuel"
  | fuel + 1, message, check_queue, st =>
    let st : AgentSt :=
      { st with history := st.history ++ [⟨"user", message, MsgMeta.none⟩] }
    match runLoop cfg provider check_queue cfg.max_iterations st with
    | Except.error e => Except.error e
    | Except.ok (st, Option.some response) =>
      if check_queue ∧ st.queue.has_followup then
        let drained := st.queue.get_followup_messages
        let st : AgentSt := { st with queue := drained.2 }
        match drained.1 with
        | [] => Except.ok (st, response, [message])
        | f :: _ =>
          match runFuel cfg provider fuel f.content true st with
          | Except.error e => Except.error e
          | Except.ok (st', resp', invs) => Except.ok (st', resp', message :: invs)
      else Except.ok (st, response, [message])
    | Except.ok (st, Option.none) =>
      Except.ok
        ({ st with history :=
            st.history ++ [⟨"assistant", "Maximum iterations reached without completion.", MsgMeta.none⟩] },
         ⟨"Maximum iterations reached without completion.", []⟩,
         [message])

/-- `Agent.run(message, check_queue)`. -/
def Agent.run (cfg : AgentCfg) (provider : Provider) (message : String)
    (check_queue : Bool) (st : AgentSt) :
    Except String (AgentSt × Response × List String) :=
  runFuel cfg provider (st.queue.queue.length + 1) message check_queue st

/-! ## Session tree and store (`pig_agent_core/session.py`)

Entry `metadata` is an arbitrary JSON object; `JsonVal` models the JSON
values that can appear in it. -/

inductive JsonVal where
  | null
  | bool (b : Bool)
  | num (n : Int)
  | str (s : String)
  | obj (fields : List (String × JsonVal))

/-- `SessionEntry`: `id` is a uuid4 string.  `timestamp` is an ISO-8601
`utcnow` string, which Python compares lexicographically; that order is the
chronological one, so timestamps are modelled by `Nat` with its order. -/
structure SessionEntry where
  id : String
  parent_id : Option String
  timestamp : Nat
  role : String
  content : String
  metadata : List (String × JsonVal)

/-- `self.entries` is a dict keyed by `entry.id`; modelled as its value list
in insertion order, with dict-assignment semantics (`dinsert`). -/
structure SessionTree where
  entries : List SessionEntry
  current_id : Option String
  root_id : Option String

def SessionTree.init : SessionTree :=
  { entries := [], current_id := Option.none, root_id := Option.none }

/-- `self.entries[entry.id] = entry` on an (ordered) Python dict: replace in
place when the key exists, else append. -/
def dinsert (l : List SessionEntry) (e : SessionEntry) : List SessionEntry :=
  if l.any (fun x => x.id == e.id) then
    l.map (fun x => if x.id == e.id then e else x)
  else l ++ [e]

/-- `SessionTree.add_entry`.  `uuid.uuid4()` and `datetime.utcnow()` are
modelled as the explicitly supplied `id` / `timestamp`. -/
def SessionTree.add_entry (t : SessionTree) (id : String) (timestamp : Nat)
    (role content : String) (parent_id : Option String)
    (metadata : List (String × JsonVal)) : SessionEntry × SessionTree :=
  let pid := match parent_id with
    | Option.none => t.current_id
    | Option.some p => Option.some p
  let e : SessionEntry :=
    { id := id, parent_id := pid, timestamp := timestamp,
      role := role, content := content, metadata := metadata }
  (e, { entries := dinsert t.entries e,
        current_id := Option.some id,
        root_id := match t.root_id with
          | Option.none => Option.some id
          | r => r })

def SessionTree.lookup (t : SessionTree) (id : String) : Option SessionEntry :=
  t.entries.find? (fun e => e.id == id)

/-- The `while current:` walk of `get_path_to_entry`, root-first.  The fuel
covers the walk on every acyclic tree; `none` models the divergence Python
would exhibit on a `parent_id` cycle. -/
def walk (t : SessionTree) : Nat → Option String → Option (List SessionEntry)
  | _, Option.none => Option.some []
  | 0, Option.some _ => Option.none
  | fuel + 1, Option.some i =>
    match t.lookup i with
    | Option.none => Option.some []
    | Option.some e => (walk t fuel e.parent_id).map (· ++ [e])

def SessionTree.get_path_to_entry (t : SessionTree) (entry_id : String) :
    List SessionEntry :=
  (walk t (t.entries.length + 1) (Option.some entry_id)).getD []

def SessionTree.get_current_path (t : SessionTree) : List SessionEntry :=
  match t.current_id with
  | Option.none => []
  | Option.some c => t.get_path_to_entry c

/-- `to_jsonl` serialises `entries.values()` in insertion order, one JSON
object per line; JSON encoding of an entry is lossless, so a line is
modelled as the entry itself. -/
def SessionTree.to_jsonl (t : SessionTree) : List SessionEntry :=
  t.entries

/-- Python's `max(values, key=...)`: the first element whose key no later
element strictly exceeds. -/
def maxByTimestamp : List SessionEntry → Option SessionEntry
  | [] => Option.none
  | e :: es =>
    Option.some (es.foldl (fun best x => if best.timestamp < x.timestamp then x else best) e)

/-- `SessionTree.from_jsonl`: insert each line's entry into the dict, track
the last entry whose `parent_id` is null as root, then point `current` at
the entry with the (first) latest timestamp. -/
def SessionTree.from_jsonl (lines : List SessionEntry) : SessionTree :=
  let t := lines.foldl
    (fun (t : SessionTree) e =>
      { t with
        entries := dinsert t.entries e,
        root_id := if e.parent_id = Option.none then Option.some e.id else t.root_id })
    SessionTree.init
  { t with current_id := (maxByTimestamp t.entries).map (fun e => e.id) }

/-- `Session` (fields relevant to the claims; `workspace` and the autosave
file path do not affect them). -/
structure Session where
  id : String
  name : String
  created_at : Nat
  updated_at : Nat
  metadata : List (String × JsonVal)
  auto_save : Bool
  tree : SessionTree

/-- `Session.add_message`: append to the tree and touch `updated_at` (the
autosave write has no effect on the in-memory session). -/
def Session.add_message (s : Session) (newId : String) (now : Nat)
    (role content : String) (parent_id : Option String)
    (metadata : List (String × JsonVal)) : SessionEntry × Session :=
  let r := s.tree.add_entry newId now role content parent_id metadata
  (r.1, { s with tree := r.2, updated_at := now })

def Session.get_current_conversation (s : Session) : List SessionEntry :=
  s.tree.get_current_path

/-- `Session.compact(instructions)`.  Note the call
`self.add_message(role=..., content=..., metadata={...})`: because
`add_message` is `(self, role, content, parent_id=None, **metadata)`, the
`metadata=` keyword is swallowed by `**metadata`, so the entry's metadata is
`{"metadata": {"compacted": True, "original_count": len(old)}}`. -/
def Session.compact (s : Session) (instructions : Option String)
    (newId : String) (now : Nat) : List SessionEntry × Session :=
  let path := s.get_current_conversation
  if path.length ≤ 10 then (path, s)
  else
    let recent := path.drop (path.length - 5)
    let old := path.take (path.length - 5)
    let summary_content :=
      "[Compacted " ++ toString old.length ++ " messages]\n" ++
      (match instructions with
       | Option.some i => "Instructions: " ++ i ++ "\n"
       | Option.none => "") ++
      "Topics covered: " ++ toString (old.map (fun e => e.role)).eraseDups.length ++ " roles"
    let r := s.add_message newId now "system" summary_content Option.none
      [("metadata", JsonVal.obj
        [("compacted", JsonVal.bool true),
         ("original_count", JsonVal.num old.length)])]
    (r.1 :: recent, r.2)

/-- The saved JSONL file: the header line followed by the entry lines (the
header's redundant embedded `tree` string is not re-read by `load`, so it is
not modelled). -/
structure SavedFile where
  id : String
  name : String
  created_at : Nat
  updated_at : Nat
  metadata : List (String × JsonVal)
  lines : List SessionEntry

/-- `Session.save`: header line, then `tree.to_jsonl()`. -/
def Session.save (s : Session) : SavedFile :=
  { id := s.id, name := s.name, created_at := s.created_at,
    updated_at := s.updated_at, metadata := s.metadata,
    lines := s.tree.to_jsonl }

/-- `Session.load`: parse the header, rebuild the tree from the remaining
lines with `SessionTree.from_jsonl`; the fresh uuid from the `Session`
constructor is overwritten by the header's id. -/
def Session.load (f : SavedFile) : Session :=
  { id := f.id, name := f.name, created_at := f.created_at,
    updated_at := f.updated_at, metadata := f.metadata,
    auto_save := false,
    tree := SessionTree.from_jsonl f.lines }

/-! ## Context files (`py_agent_core/context.py`)

The directory hierarchy relevant to `find_context_files` for one filename:
optional contents of the two global locations and, for every directory from
the workspace up to the filesystem root, the optional contents of
`<dir>/<file>`, `<dir>/.agents/<file>` and `<dir>/.pi/<file>`.  `levels`
lists the workspace first, then its parents in ascending order, mirroring
the `while current != current.parent` walk. -/

structure CtxLevel where
  dir : String
  direct : Option String
  agents : Option String
  pi : Option String

structure CtxFS where
  globalAgents : Option String
  globalPi : Option String
  levels : List CtxLevel

def ctxEntry (path : String) : Option String → List (String × String)
  | Option.none => []
  | Option.some c => [(path, c)]

/-- One level of the upward walk: `<dir>/<file>`, then `<dir>/.agents/<file>`,
then `<dir>/.pi/<file>`. -/
def levelFiles (filename : String) (l : CtxLevel) : List (String × String) :=
  ctxEntry (l.dir ++ "/" ++ filename) l.direct ++
  ctxEntry (l.dir ++ "/.agents/" ++ filename) l.agents ++
  ctxEntry (l.dir ++ "/.pi/" ++ filename) l.pi

/-- `ContextManager.find_context_files`: global config first, then the walk
*upward from the workspace* (each level's files are appended after the
previous, nearer, level's).  The `not in found` dedup is by path. -/
def find_context_files (fs : CtxFS) (filename : String) : List (String × String) :=
  let candidates :=
    ctxEntry ("~/.agents/" ++ filename) fs.globalAgents ++
    ctxEntry ("~/.pi/agent/" ++ filename) fs.globalPi ++
    (fs.levels.map (levelFiles filename)).flatten
  candidates.foldl
    (fun found c => if found.any (fun f => f.1 == c.1) then found else found ++ [c])
    []

/-- `load_system_md`: `files[-1].read_text()` — the *last* found file. -/
def load_system_md (sys : CtxFS) : Option String :=
  ((find_context_files sys "SYSTEM.md").getLast?).map (fun f => f.2)

/-- `load_agents_md`: every found file, prefixed `# From: <path>` and joined
with `\n\n---\n\n`. -/
def load_agents_md (ag : CtxFS) : Option String :=
  match find_context_files ag "AGENTS.md" with
  | [] => Option.none
  | files =>
    Option.some (String.intercalate "\n\n---\n\n"
      (files.map (fun f => "# From: " ++ f.1 ++ "\n\n" ++ f.2)))

/-- `load_append_system_md`: every found file's content joined with `\n\n`. -/
def load_append_system_md (ap : CtxFS) : Option String :=
  match find_context_files ap "APPEND_SYSTEM.md" with
  | [] => Option.none
  | files => Option.some (String.intercalate "\n\n" (files.map (fun f => f.2)))

/-- `build_system_prompt`:  `if system_md:` is Python truthiness, so an empty
`SYSTEM.md` falls back to the default prompt. -/
def build_system_prompt (default_prompt : String)
    (sys ag ap : CtxFS) : String :=
  let base :=
    match load_system_md sys with
    | Option.some s => if s = "" then default_prompt else s
    | Option.none => default_prompt
  let base :=
    match load_agents_md ag with
    | Option.some s => if s = "" then base else base ++ "\n\n# Project Context\n\n" ++ s
    | Option.none => base
  match load_append_system_md ap with
  | Option.some s => if s = "" then base else base ++ "\n\n" ++ s
  | Option.none => base

/-- Spec-side definition for claim C8 ("the nearest wins"): the first
`SYSTEM.md` found walking from the workspace upward (the hierarchy files are
nearer than the global-config ones). -/
def specNearestSystemMd (sys : CtxFS) : Option String :=
  (((sys.levels.map (levelFiles "SYSTEM.md")).flatten ++
    ctxEntry "~/.agents/SYSTEM.md" sys.globalAgents ++
    ctxEntry "~/.pi/agent/SYSTEM.md" sys.globalPi).head?).map (fun f => f.2)

/-! ## `@file` resolution (`pig_coding_agent/file_reference.py`)

Absolute paths are modelled as their component lists (`/a/b/c` ↦
`["a","b","c"]`); `Path.resolve()` is `normalizeComponents`, and `str(path)`
is `renderPath`.  The filesystem is a list of (resolved absolute path,
content) pairs, in the traversal order `rglob` would produce. -/

def normalizeComponents (cs : List String) : List String :=
  cs.foldl
    (fun acc c =>
      if c = "" ∨ c = "." then acc
      else if c = ".." then acc.dropLast
      else acc ++ [c])
    []

def renderPath (cs : List String) : String :=
  "/" ++ String.intercalate "/" cs

/-- Python's `str.startswith`: character-wise prefix test. -/
def strStartswith (p s : String) : Bool :=
  p.toList.isPrefixOf s.toList

def FileSys := List (List String × String)

def FileSys.exists (fs : FileSys) (p : List String) : Bool :=
  List.any fs (fun f => f.1 == p)

def FileSys.read (fs : FileSys) (p : List String) : Option String :=
  (List.find? (fun f => f.1 == p) fs).map (fun f => f.2)

/-- `FileReferenceParser.resolve_file` for workspace `ws` (an absolute,
already-resolved component list) and reference `ref` (the components of the
`@`-reference string).  Returns `(exists, path, content_or_error)`.

The containment check is the source's
`str(resolved).startswith(str(workspace.resolve()))` — a *string* prefix
test on the rendered paths. -/
def resolve_file (fs : FileSys) (ws ref : List String) :
    Bool × List String × String :=
  let file_path := ws ++ ref
  let resolved := normalizeComponents file_path
  if ¬ (strStartswith (renderPath (normalizeComponents ws)) (renderPath resolved)) then
    (false, file_path, "File outside workspace: " ++ String.intercalate "/" ref)
  else
    -- `file_path.exists()` asks the OS, which resolves `..` on the way, so
    -- existence and reads of `file_path` are keyed by `resolved`
    if fs.exists resolved then
      match fs.read resolved with
      | Option.some content => (true, file_path, content)
      | Option.none => (false, file_path, "Error reading file")
    else
      -- `workspace.rglob(Path(reference).name)`: first file under the
      -- workspace whose final component matches the reference's name
      match List.find? (fun f =>
          (normalizeComponents ws).isPrefixOf f.1 ∧ f.1.getLast? == ref.getLast?) fs with
      | Option.some f => (true, f.1, f.2)
      | Option.none =>
          (false, file_path, "File not found: " ++ String.intercalate "/" ref)

/-- Semantic workspace containment: the resolved path is inside the
workspace root iff the workspace's components are a prefix of its
components. -/
def insideWorkspace (ws resolved : List String) : Bool :=
  List.isPrefixOf ws resolved

/-! ## Bot dispatcher (`py_messenger/bot.py`)

`MessengerBot.handle_message` is driven by external collaborators (session
manager, agent, platform adapter); each is modelled as an oracle that either
returns or raises.  A trace of effects records session writes and every
`send_message` *attempt* (whether or not the adapter then raises). -/

structure UniversalMessage where
  platform : String
  channel_id : String
  thread_id : Option String
  is_thread : Bool
  text : String

inductive BotEffect where
  | sessionAdd (session_key role content : String)
  | sendAttempt (channel_id text : String) (thread_id : Option String)
deriving DecidableEq, Repr

structure BotEnv where
  /-- `enable_sessions` left `self.session_manager` non-None. -/
  has_session_manager : Bool
  /-- `session_manager.get_session(key)`; `.error` = raises. -/
  get_session : String → Except String Unit
  /-- `session.add_message(role, content)` for the session of `key`. -/
  session_add : String → String → String → Except String Unit
  /-- `agent.run(text)`; `.ok` carries `response.content`. -/
  agent_run : String → Except String String
  /-- `self.platforms.get(name)` is non-None. -/
  platform_exists : String → Bool
  /-- `platform.send_message(channel_id, text, thread_id)`. -/
  send_message : String → String → Option String → Except String Unit

def botThread (m : UniversalMessage) : Option String :=
  if m.is_thread then m.thread_id else Option.none

/-- The body of `handle_message`'s `try:` block, returning the effects that
happened before a raise, and the raised exception if any. -/
def tryBody (env : BotEnv) (m : UniversalMessage) :
    List BotEffect × Option String :=
  let key := m.platform ++ ":" ++ m.channel_id
  let sessionStep : List BotEffect × Option String :=
    if env.has_session_manager then
      match env.get_session key with
      | Except.error e => ([], Option.some e)
      | Except.ok () =>
        match env.session_add key "user" m.text with
        | Except.error e => ([], Option.some e)
        | Except.ok () => ([BotEffect.sessionAdd key "user" m.text], Option.none)
    else ([], Option.none)
  match sessionStep with
  | (fx, Option.some e) => (fx, Option.some e)
  | (fx, Option.none) =>
    match env.agent_run m.text with
    | Except.error e => (fx, Option.some e)
    | Except.ok response =>
      let afterSession : List BotEffect × Option String :=
        if env.has_session_manager then
          match env.session_add key "assistant" response with
          | Except.error e => (fx, Option.some e)
          | Except.ok () => (fx ++ [BotEffect.sessionAdd key "assistant" response], Option.none)
        else (fx, Option.none)
      match afterSession with
      | (fx, Option.some e) => (fx, Option.some e)
      | (fx, Option.none) =>
        if env.platform_exists m.platform then
          let fx := fx ++ [BotEffect.sendAttempt m.channel_id response (botThread m)]
          match env.send_message m.channel_id response (botThread m) with
          | Except.error e => (fx, Option.some e)
          | Except.ok () => (fx, Option.none)
        else (fx, Option.none)

/-- `MessengerBot.handle_message`: the `try/except Exception` wraps the whole
body; the handler best-effort sends `"❌ Error: {e}"` back to the originating
channel, swallowing any failure of that send with an inner
`try/except: pass`. -/
def handle_message (env : BotEnv) (m : UniversalMessage) :
    Except String (List BotEffect) :=
  match tryBody env m with
  | (fx, Option.none) => Except.ok fx
  | (fx, Option.some e) =>
    if env.platform_exists m.platform then
      let fx := fx ++ [BotEffect.sendAttempt m.channel_id ("❌ Error: " ++ e) (botThread m)]
      match env.send_message m.channel_id ("❌ Error: " ++ e) (botThread m) with
      | Except.ok () => Except.ok fx
      | Except.error _ => Except.ok fx
    else Except.ok fx

/-! ## Claim C8 — SYSTEM.md selection -/

/-- A hierarchy with `SYSTEM.md` both in the workspace (`WS`) and in its
parent directory (`PARENT`), and no global config files. -/
def fsC8 : CtxFS :=
  { globalAgents := Option.none, globalPi := Option.none,
    levels :=
      [⟨"/home/u/proj", Option.some "WS", Option.none, Option.none⟩,
       ⟨"/home/u", Option.some "PARENT", Option.none, Option.none⟩,
       ⟨"/home", Option.none, Option.none, Option.none⟩] }

/-- A hierarchy with no context files at all. -/
def emptyCtxFS : CtxFS :=
  { globalAgents := Option.none, globalPi := Option.none, levels := [] }

/-- C8 (code bug, evaluated at the failing input): the upward walk appends
the workspace's `SYSTEM.md` *before* the parent's, and `load_system_md`
takes `files[-1]`, so with a `SYSTEM.md` at both levels the composed prompt's
base is the parent's content — not the nearest one, which is the workspace's
(`find_context_files`'s own docstring even promises the order
"global, parents, cwd"). -/
theorem claim_C8_farthest_wins :
    load_system_md fsC8 = Option.some "PARENT" ∧
    specNearestSystemMd fsC8 = Option.some "WS" ∧
    build_system_prompt "DEFAULT" fsC8 emptyCtxFS emptyCtxFS = "PARENT" := by
  decide

/-! ## Claim C6 — workspace containment of `@file` references -/

/-- A filesystem with one file outside the workspace `/ws`, in the sibling
directory `/ws-evil` whose name has `/ws` as a string prefix. -/
def fsC6 : FileSys := [(["ws-evil", "secret.txt"], "TOPSECRET")]

/-- C6 (code bug, evaluated at the failing input): for workspace `/ws` and
reference `../ws-evil/secret.txt`, the resolved path `/ws-evil/secret.txt`
lies outside the workspace root, yet the `startswith` containment check
accepts it (`"/ws-evil/secret.txt"` starts with `"/ws"`) and the resolver
reads and returns the file's contents instead of refusing. -/
theorem claim_C6_escape_read :
    (resolve_file fsC6 ["ws"] ["..", "ws-evil", "secret.txt"]).1 = true ∧
    (resolve_file fsC6 ["ws"] ["..", "ws-evil", "secret.txt"]).2.2 = "TOPSECRET" ∧
    insideWorkspace ["ws"]
      (normalizeComponents (["ws"] ++ ["..", "ws-evil", "secret.txt"])) = false := by
  decide

/-! ## Claim C4 — steering drain -/

lemma filter_followup_of_filter_not_steering (l : List QueuedMessage) :
    (l.filter (fun m => !(m.type == MessageType.steering))).filter
        (fun m => m.type == MessageType.followup) =
      l.filter (fun m => m.type == MessageType.followup) := by
  induction l with
  | nil => rfl
  | cons m rest ih =>
    cases h : m.type <;> simp [List.filter_cons, h, ih]

/-- C4 (amended): `get_steering_messages` always removes *every* steering
message from the queue; in one-at-a-time mode it returns only the first of
them (the remainder are discarded, not retained), and in `all` mode it
returns the whole steering FIFO.  Follow-up messages' presence, class and
order are unaffected. -/
theorem claim_C4_amended (q : MessageQueue) :
    ((q.get_steering_messages).2.queue =
        q.queue.filter (fun m => !(m.type == MessageType.steering))) ∧
    ((q.get_steering_messages).2.queue.filter (fun m => m.type == MessageType.followup) =
        q.queue.filter (fun m => m.type == MessageType.followup)) ∧
    (q.steering_mode = DrainMode.oneAtATime →
      (q.get_steering_messages).1 =
        (q.queue.filter (fun m => m.type == MessageType.steering)).take 1) ∧
    (q.steering_mode = DrainMode.all →
      (q.get_steering_messages).1 =
        q.queue.filter (fun m => m.type == MessageType.steering)) := by
  refine ⟨rfl, filter_followup_of_filter_not_steering q.queue, ?_, ?_⟩
  · intro hmode
    simp only [MessageQueue.get_steering_messages, hmode, if_pos rfl]
    cases q.queue.filter (fun m => m.type == MessageType.steering) <;> rfl
  · intro hmode
    simp [MessageQueue.get_steering_messages, hmode]

/-- C4 witness: the amended statement applied to a concrete queue holding two
steering messages and one follow-up. -/
theorem claim_C4_witness :
    ((((MessageQueue.init.add_steering "s1").add_steering "s2").add_followup "f1").get_steering_messages).1 =
      (((((MessageQueue.init.add_steering "s1").add_steering "s2").add_followup "f1")).queue.filter
        (fun m => m.type == MessageType.steering)).take 1 :=
  (claim_C4_amended _).2.2.1 rfl

/-- C4 counterexample: with two queued steering messages, the claim says the
drain removes exactly the head and `"s2"` remains queued; in fact the queue
retains no steering message at all — `"s2"` has been dropped. -/
theorem claim_C4_counterexample :
    ¬ (⟨"s2", MessageType.steering⟩ ∈
        (((MessageQueue.init.add_steering "s1").add_steering "s2").get_steering_messages).2.queue) := by
  decide

/-! ## Claim C9 — dispatcher error isolation -/

/-- C9: `handle_message` never raises, whatever the session manager, the
agent, or the platform adapter do; and whenever the handling body raised
some exception `e` and the originating platform is registered, the effect
trace contains the best-effort attempt to send `"❌ Error: {e}"` back to the
originating channel. -/
theorem claim_C9_handle_message_isolated (env : BotEnv) (m : UniversalMessage) :
    ∃ fx, handle_message env m = Except.ok fx ∧
      ∀ e, (tryBody env m).2 = Option.some e →
        env.platform_exists m.platform = true →
        BotEffect.sendAttempt m.channel_id ("❌ Error: " ++ e) (botThread m) ∈ fx := by
  rcases h : tryBody env m with ⟨fx, err⟩
  cases err with
  | none =>
    refine ⟨fx, by simp [handle_message, h], ?_⟩
    intro e he
    simp at he
  | some e0 =>
    by_cases hp : env.platform_exists m.platform
    · cases hs : env.send_message m.channel_id ("❌ Error: " ++ e0) (botThread m) with
      | ok u =>
        refine ⟨fx ++ [BotEffect.sendAttempt m.channel_id ("❌ Error: " ++ e0) (botThread m)],
          by simp [handle_message, h, hp, hs], ?_⟩
        intro e he _
        simp at he
        subst he
        simp
      | error s =>
        refine ⟨fx ++ [BotEffect.sendAttempt m.channel_id ("❌ Error: " ++ e0) (botThread m)],
          by simp [handle_message, h, hp, hs], ?_⟩
        intro e he _
        simp at he
        subst he
        simp
    · refine ⟨fx, by simp [handle_message, h, hp], ?_⟩
      intro e he hpe
      exact absurd hpe hp

/-- Concrete environment for the C9 witness: the agent raises `"boom"`, the
slack platform is registered and its `send` succeeds. -/
def envC9 : BotEnv :=
  { has_session_manager := false,
    get_session := fun _ => Except.ok (),
    session_add := fun _ _ _ => Except.ok (),
    agent_run := fun _ => Except.error "boom",
    platform_exists := fun _ => true,
    send_message := fun _ _ _ => Except.ok () }

def msgC9 : UniversalMessage :=
  { platform := "slack", channel_id := "chan", thread_id := Option.none,
    is_thread := false, text := "hi" }

/-- C9 witness: at the concrete environment, the handler returns normally and
its trace contains the error notice sent to the originating channel. -/
theorem claim_C9_witness :
    ∃ fx, handle_message envC9 msgC9 = Except.ok fx ∧
      BotEffect.sendAttempt "chan" ("❌ Error: " ++ "boom") Option.none ∈ fx := by
  obtain ⟨fx, hok, hmem⟩ := claim_C9_handle_message_isolated envC9 msgC9
  exact ⟨fx, hok, hmem "boom" (by decide) (by decide)⟩

/-! ## Agent-loop lemmas shared by claims C1, C2, C7 and C10 -/

/-- The single `tool_results` record a call produces when neither hook
interferes. -/
def toolOutcome (cfg : AgentCfg) (tc : ToolCall) : ToolResultRec :=
  match cfg.registry.execute tc.name tc.args with
  | Except.ok r => ⟨tc.id, tc.name, r⟩
  | Except.error e => ⟨tc.id, tc.name, "Error: " ++ e⟩

/-- The `on_tool_start` hook, when set, never raises. -/
def StartHookBenign (cfg : AgentCfg) : Prop :=
  ∀ f, cfg.on_tool_start = Option.some f → ∀ n a, f n a = Except.ok ()

/-- The `on_tool_end` hook, when set, never raises. -/
def EndHookBenign (cfg : AgentCfg) : Prop :=
  ∀ f, cfg.on_tool_end = Option.some f → ∀ n r, f n r = Except.ok ()

lemma startHook_ok (cfg : AgentCfg) (hs : StartHookBenign cfg) (tc : ToolCall) :
    startHookRun cfg tc = Except.ok () := by
  unfold startHookRun
  cases h : cfg.on_tool_start with
  | none => rfl
  | some f => exact hs f h tc.name tc.args

lemma endHook_ok (cfg : AgentCfg) (he : EndHookBenign cfg) (name result : String) :
    endHookRun cfg name result = Except.ok () := by
  unfold endHookRun
  cases h : cfg.on_tool_end with
  | none => rfl
  | some f => exact he f h name result

lemma execToolCall_benign (cfg : AgentCfg) (hs : StartHookBenign cfg)
    (he : EndHookBenign cfg) (tc : ToolCall) :
    execToolCall cfg tc = Except.ok [toolOutcome cfg tc] := by
  unfold execToolCall toolOutcome
  rw [startHook_ok cfg hs tc]
  cases hx : cfg.registry.execute tc.name tc.args with
  | error e => rfl
  | ok r => simp only [endHook_ok cfg he]

lemma execToolCall_startBenign (cfg : AgentCfg) (hs : StartHookBenign cfg)
    (tc : ToolCall) : ∃ rs, execToolCall cfg tc = Except.ok rs := by
  unfold execToolCall
  rw [startHook_ok cfg hs tc]
  cases hx : cfg.registry.execute tc.name tc.args with
  | error e => exact ⟨_, rfl⟩
  | ok r =>
    cases h : endHookRun cfg tc.name r with
    | ok u =>
      exact ⟨[⟨tc.id, tc.name, r⟩], by simp only [h]⟩
    | error e =>
      exact ⟨[⟨tc.id, tc.name, r⟩, ⟨tc.id, tc.name, "Error: " ++ e⟩], by simp only [h]⟩

lemma execBatch_benign (cfg : AgentCfg) (hs : StartHookBenign cfg)
    (he : EndHookBenign cfg) (calls : List ToolCall) :
    execBatch cfg calls = Except.ok (calls.map (toolOutcome cfg)) := by
  induction calls with
  | nil => rfl
  | cons tc rest ih =>
    simp only [execBatch, execToolCall_benign cfg hs he tc, ih, List.map_cons]
    rfl

lemma execBatch_startBenign (cfg : AgentCfg) (hs : StartHookBenign cfg)
    (calls : List ToolCall) : ∃ rs, execBatch cfg calls = Except.ok rs := by
  induction calls with
  | nil => exact ⟨[], rfl⟩
  | cons tc rest ih =>
    obtain ⟨rs, hrs⟩ := execToolCall_startBenign cfg hs tc
    obtain ⟨rest', hrest⟩ := ih
    exact ⟨rs ++ rest', by simp only [execBatch, hrs, hrest]⟩

lemma any_followup_filter_not_steering (l : List QueuedMessage) :
    (l.filter (fun m => !(m.type == MessageType.steering))).any
        (fun m => m.type == MessageType.followup) =
      l.any (fun m => m.type == MessageType.followup) := by
  induction l with
  | nil => rfl
  | cons m rest ih =>
    cases h : m.type <;> simp [List.filter_cons, List.any_cons, h, ih]

lemma any_followup_filter_not_followup (l : List QueuedMessage) :
    (l.filter (fun m => !(m.type == MessageType.followup))).any
        (fun m => m.type == MessageType.followup) = false := by
  induction l with
  | nil => rfl
  | cons m rest ih =>
    cases h : m.type <;> simp [List.filter_cons, List.any_cons, h, ih]

lemma get_steering_preserves_followup (q : MessageQueue) :
    (q.get_steering_messages).2.has_followup = q.has_followup := by
  simp only [MessageQueue.get_steering_messages, MessageQueue.has_followup]
  exact any_followup_filter_not_steering q.queue

lemma batchResultState_calls (cq : Bool) (resp : Response)
    (rs : List ToolResultRec) (st : AgentSt) :
    (batchResultState cq resp rs st).calls = st.calls := by
  simp only [batchResultState]
  split <;> rfl

lemma batchResultState_followup (cq : Bool) (resp : Response)
    (rs : List ToolResultRec) (st : AgentSt) :
    (batchResultState cq resp rs st).queue.has_followup = st.queue.has_followup := by
  simp only [batchResultState]
  split
  · exact get_steering_preserves_followup st.queue
  · rfl

lemma batchStep_ok (cfg : AgentCfg) (cq : Bool) (resp : Response) (st : AgentSt)
    (rs : List ToolResultRec) (h : execBatch cfg resp.tool_calls = Except.ok rs) :
    batchStep cfg cq resp st = Except.ok (batchResultState cq resp rs st) := by
  unfold batchStep
  rw [h]

lemma batchStep_inv (cfg : AgentCfg) (cq : Bool) (resp : Response)
    (st st' : AgentSt) (h : batchStep cfg cq resp st = Except.ok st') :
    ∃ rs, execBatch cfg resp.tool_calls = Except.ok rs ∧
      st' = batchResultState cq resp rs st := by
  unfold batchStep at h
  cases hx : execBatch cfg resp.tool_calls with
  | error e =>
    rw [hx] at h
    cases h
  | ok rs =>
    rw [hx] at h
    cases h
    exact ⟨rs, rfl, rfl⟩

/-- With a benign `on_tool_start` hook, the iteration loop never raises —
in particular no tool failure aborts it. -/
lemma runLoop_ok (cfg : AgentCfg) (hs : StartHookBenign cfg)
    (provider : Provider) (cq : Bool) :
    ∀ fuel st, ∃ out, runLoop cfg provider cq fuel st = Except.ok out := by
  intro fuel
  induction fuel with
  | zero => intro st; exact ⟨_, rfl⟩
  | succ n ih =>
    intro st
    unfold runLoop
    by_cases hempty : (provider st.calls).tool_calls.isEmpty
    · rw [if_pos hempty]
      exact ⟨_, rfl⟩
    · rw [if_neg hempty]
      obtain ⟨rs, hrs⟩ := execBatch_startBenign cfg hs (provider st.calls).tool_calls
      rw [batchStep_ok cfg cq (provider st.calls) { st with calls := st.calls + 1 } rs hrs]
      exact ih _

/-- Each loop iteration makes exactly one provider call, so a loop entered
with `fuel` remaining iterations makes at most `fuel` calls. -/
lemma runLoop_calls_le (cfg : AgentCfg) (provider : Provider) (cq : Bool) :
    ∀ fuel st out, runLoop cfg provider cq fuel st = Except.ok out →
      out.1.calls ≤ st.calls + fuel := by
  intro fuel
  induction fuel with
  | zero =>
    intro st out h
    cases h
    show st.calls ≤ st.calls + 0
    omega
  | succ n ih =>
    intro st out h
    unfold runLoop at h
    by_cases hempty : (provider st.calls).tool_calls.isEmpty
    · rw [if_pos hempty] at h
      cases h
      show st.calls + 1 ≤ st.calls + (n + 1)
      omega
    · rw [if_neg hempty] at h
      cases hb : batchStep cfg cq (provider st.calls) { st with calls := st.calls + 1 } with
      | error e => rw [hb] at h; cases h
      | ok st' =>
        rw [hb] at h
        have h1 := ih st' out h
        obtain ⟨rs, -, hst'⟩ := batchStep_inv _ _ _ _ _ hb
        have h2 : st'.calls = st.calls + 1 := by
          rw [hst', batchResultState_calls]
        omega

/-- The loop never enqueues: whether the steering drain ran or not, the
presence of follow-ups is unchanged across the whole loop. -/
lemma runLoop_followup (cfg : AgentCfg) (provider : Provider) (cq : Bool) :
    ∀ fuel st out, runLoop cfg provider cq fuel st = Except.ok out →
      out.1.queue.has_followup = st.queue.has_followup := by
  intro fuel
  induction fuel with
  | zero =>
    intro st out h
    cases h
    rfl
  | succ n ih =>
    intro st out h
    unfold runLoop at h
    by_cases hempty : (provider st.calls).tool_calls.isEmpty
    · rw [if_pos hempty] at h
      cases h
      rfl
    · rw [if_neg hempty] at h
      cases hb : batchStep cfg cq (provider st.calls) { st with calls := st.calls + 1 } with
      | error e => rw [hb] at h; cases h
      | ok st' =>
        rw [hb] at h
        obtain ⟨rs, -, hst'⟩ := batchStep_inv _ _ _ _ _ hb
        rw [ih st' out h, hst', batchResultState_followup]

/-! ## Claim C2 — tool failure isolation -/

/-- C2: provided the observer hooks themselves do not raise (hook failures
are claim C7's subject), every tool-call failure — unknown tool, validation
failure or an exception inside the tool — is caught: the call's
`tool_results` record has content `"Error: " ++ e`, the whole batch
succeeds, the loop proceeds from a tool-calls response to the next provider
call with the remaining budget, and the loop never raises. -/
theorem claim_C2_tool_failure_isolated (cfg : AgentCfg)
    (hs : StartHookBenign cfg) (he : EndHookBenign cfg) :
    (∀ tc e, cfg.registry.execute tc.name tc.args = Except.error e →
        execToolCall cfg tc = Except.ok [⟨tc.id, tc.name, "Error: " ++ e⟩]) ∧
    (∀ calls, execBatch cfg calls = Except.ok (calls.map (toolOutcome cfg))) ∧
    (∀ (provider : Provider) (cq : Bool) (fuel : Nat) (st : AgentSt),
        (provider st.calls).tool_calls.isEmpty = false →
        runLoop cfg provider cq (fuel + 1) st =
          runLoop cfg provider cq fuel
            (batchResultState cq (provider st.calls)
              ((provider st.calls).tool_calls.map (toolOutcome cfg))
              { st with calls := st.calls + 1 })) ∧
    (∀ (provider : Provider) (cq : Bool) (fuel : Nat) (st : AgentSt),
        ∃ out, runLoop cfg provider cq fuel st = Except.ok out) := by
  refine ⟨?_, execBatch_benign cfg hs he, ?_, fun p cq fuel st => runLoop_ok cfg hs p cq fuel st⟩
  · intro tc e herr
    rw [execToolCall_benign cfg hs he tc]
    unfold toolOutcome
    rw [herr]
  · intro provider cq fuel st hne
    conv_lhs => rw [runLoop]
    rw [if_neg (by simp [hne])]
    rw [batchStep_ok cfg cq (provider st.calls) { st with calls := st.calls + 1 }
      ((provider st.calls).tool_calls.map (toolOutcome cfg))
      (execBatch_benign cfg hs he (provider st.calls).tool_calls)]

/-- A tool that always raises `"kaboom"`. -/
def toolBoom : Tool := ⟨"boom", fun _ => Except.error "kaboom"⟩

def cfgC2 : AgentCfg := ⟨2, [toolBoom], Option.none, Option.none⟩

def tcBoom : ToolCall := ⟨"t1", "boom", []⟩

def tcMissing : ToolCall := ⟨"t2", "nope", []⟩

/-- A provider that always requests the two failing tool calls. -/
def provC2 : Provider := fun _ => ⟨"", [tcBoom, tcMissing]⟩

def stEmpty : AgentSt := ⟨[], MessageQueue.init, 0⟩

/-- C2 witness: with a raising tool and an unknown tool, both failures become
`"Error: ..."` tool records and the loop still completes without raising. -/
theorem claim_C2_witness :
    execToolCall cfgC2 tcBoom = Except.ok [⟨"t1", "boom", "Error: " ++ "kaboom"⟩] ∧
    execBatch cfgC2 [tcBoom, tcMissing] =
      Except.ok ([tcBoom, tcMissing].map (toolOutcome cfgC2)) ∧
    (∃ out, runLoop cfgC2 provC2 true 2 stEmpty = Except.ok out) := by
  have hs : StartHookBenign cfgC2 := by
    intro f h
    cases h
  have he : EndHookBenign cfgC2 := by
    intro f h
    cases h
  refine ⟨(claim_C2_tool_failure_isolated cfgC2 hs he).1 tcBoom "kaboom" rfl, ?_, ?_⟩
  · exact (claim_C2_tool_failure_isolated cfgC2 hs he).2.1 [tcBoom, tcMissing]
  · exact (claim_C2_tool_failure_isolated cfgC2 hs he).2.2.2 provC2 true 2 stEmpty

/-! ## Claim C7 — observer hook isolation -/

/-- C7 (amended): a raising `on_tool_end` hook is caught — the batch still
succeeds (the successful result record is followed by an extra
`"Error: ..."` record) and the loop never raises; but `on_tool_start` runs
*outside* the `try:` block, so its exceptions are *not* isolated (see the
counterexample). -/
theorem claim_C7_amended (cfg : AgentCfg) (hs : StartHookBenign cfg) :
    (∀ tc r f e, cfg.registry.execute tc.name tc.args = Except.ok r →
        cfg.on_tool_end = Option.some f → f tc.name r = Except.error e →
        execToolCall cfg tc =
          Except.ok [⟨tc.id, tc.name, r⟩, ⟨tc.id, tc.name, "Error: " ++ e⟩]) ∧
    (∀ calls, ∃ rs, execBatch cfg calls = Except.ok rs) ∧
    (∀ (provider : Provider) (cq : Bool) (fuel : Nat) (st : AgentSt),
        ∃ out, runLoop cfg provider cq fuel st = Except.ok out) := by
  refine ⟨?_, execBatch_startBenign cfg hs, fun p cq fuel st => runLoop_ok cfg hs p cq fuel st⟩
  intro tc r f e hok hf he
  unfold execToolCall
  rw [startHook_ok cfg hs tc]
  have hend : endHookRun cfg tc.name r = Except.error e := by
    unfold endHookRun
    rw [hf]
    exact he
  simp only [hok, hend]

/-- An `on_tool_start` hook that always raises. -/
def hookStartFail : String → Args → Except String Unit :=
  fun _ _ => Except.error "hook boom"

def cfgC7 : AgentCfg := ⟨3, [], Option.some hookStartFail, Option.none⟩

/-- A provider that always requests one tool call. -/
def provC7 : Provider := fun _ => ⟨"", [⟨"t1", "echo", []⟩]⟩

/-- C7 counterexample: with a raising `on_tool_start` hook and a provider
that requests a tool call, `Agent.run` propagates the hook's exception and
the turn aborts — contradicting "observer exceptions are isolated and never
abort the turn". -/
theorem claim_C7_counterexample :
    Agent.run cfgC7 provC7 "go" true stEmpty = Except.error "hook boom" := by
  rfl

/-- An `on_tool_end` hook that always raises. -/
def hookEndFail : String → String → Except String Unit :=
  fun _ _ => Except.error "late"

def toolFine : Tool := ⟨"ok_tool", fun _ => Except.ok "fine"⟩

def cfgC7w : AgentCfg := ⟨1, [toolFine], Option.none, Option.some hookEndFail⟩

def provC7w : Provider := fun _ => ⟨"", [⟨"t1", "ok_tool", []⟩]⟩

/-- C7 witness: with a raising `on_tool_end` hook, the call yields the
success record plus an error record, and the loop completes without
raising. -/
theorem claim_C7_witness :
    execToolCall cfgC7w ⟨"t1", "ok_tool", []⟩ =
      Except.ok [⟨"t1", "ok_tool", "fine"⟩, ⟨"t1", "ok_tool", "Error: " ++ "late"⟩] ∧
    (∃ out, runLoop cfgC7w provC7w true 1 stEmpty = Except.ok out) := by
  have hs : StartHookBenign cfgC7w := by
    intro f h
    cases h
  refine ⟨(claim_C7_amended cfgC7w hs).1 ⟨"t1", "ok_tool", []⟩ "fine" hookEndFail "late"
    rfl rfl rfl, ?_⟩
  exact (claim_C7_amended cfgC7w hs).2.2 provC7w true 1 stEmpty

/-- A tool-free provider response finishes the iteration immediately:
append the assistant message and return the response. -/
lemma runLoop_toolfree (cfg : AgentCfg) (provider : Provider) (cq : Bool)
    (fuel : Nat) (st : AgentSt) (hp : (provider st.calls).tool_calls = []) :
    runLoop cfg provider cq (fuel + 1) st =
      Except.ok
        (⟨st.history ++ [⟨"assistant", (provider st.calls).content, MsgMeta.none⟩],
          st.queue, st.calls + 1⟩,
         Option.some (provider st.calls)) := by
  conv_lhs => rw [runLoop]
  simp [hp]

/-! ## Claim C1 — loop bound and iteration ceiling -/

/-- C1 (amended): (1) the iteration loop makes at most as many provider
calls as it has remaining iterations — so one `run` *invocation* makes at
most `max_iterations` provider calls; (2) a whole turn with no queued
follow-up therefore stays within `max_iterations` (a chained follow-up
re-enters `run` with a fresh budget, so a turn with follow-ups may exceed
it — see the counterexample); (3) when the budget is exhausted without a
tool-free response, `run` appends an assistant message whose content is
exactly `"Maximum iterations reached without completion."` and returns it. -/
theorem claim_C1_amended :
    (∀ (cfg : AgentCfg) (provider : Provider) (cq : Bool) (fuel : Nat)
        (st : AgentSt) (out : AgentSt × Option Response),
        runLoop cfg provider cq fuel st = Except.ok out →
        out.1.calls ≤ st.calls + fuel) ∧
    (∀ (cfg : AgentCfg) (provider : Provider) (msg : String) (cq : Bool)
        (st : AgentSt) (out : AgentSt × Response × List String),
        st.queue.has_followup = false →
        Agent.run cfg provider msg cq st = Except.ok out →
        out.1.calls ≤ st.calls + cfg.max_iterations) ∧
    (∀ (cfg : AgentCfg) (provider : Provider) (msg : String) (cq : Bool)
        (st st₁ : AgentSt),
        runLoop cfg provider cq cfg.max_iterations
            { st with history := st.history ++ [⟨"user", msg, MsgMeta.none⟩] } =
          Except.ok (st₁, Option.none) →
        Agent.run cfg provider msg cq st =
          Except.ok
            ({ st₁ with history := st₁.history ++
                [⟨"assistant", "Maximum iterations reached without completion.",
                  MsgMeta.none⟩] },
             ⟨"Maximum iterations reached without completion.", []⟩,
             [msg])) := by
  refine ⟨fun cfg p cq fuel st out h => runLoop_calls_le cfg p cq fuel st out h, ?_, ?_⟩
  · intro cfg provider msg cq st out hnf hrun
    simp only [Agent.run, runFuel] at hrun
    cases hloop : runLoop cfg provider cq cfg.max_iterations
        { st with history := st.history ++ [⟨"user", msg, MsgMeta.none⟩] } with
    | error e =>
      simp only [hloop] at hrun
      cases hrun
    | ok res =>
      have hcalls := runLoop_calls_le cfg provider cq cfg.max_iterations _ res hloop
      rcases res with ⟨st₁, r⟩
      cases r with
      | none =>
        simp only [hloop, Except.ok.injEq] at hrun
        rw [← hrun]
        exact hcalls
      | some resp =>
        have hfu : st₁.queue.has_followup = false := by
          have hpres := runLoop_followup cfg provider cq cfg.max_iterations _ _ hloop
          exact hpres.trans hnf
        simp only [hloop, hfu, Bool.false_eq_true, and_false, if_false,
          Except.ok.injEq] at hrun
        rw [← hrun]
        exact hcalls
  · intro cfg provider msg cq st st₁ hloop
    simp only [Agent.run, runFuel, hloop]

/-- One queued follow-up message `"B"`. -/
def stC1 : AgentSt :=
  ⟨[], ⟨[⟨"B", MessageType.followup⟩], DrainMode.oneAtATime, DrainMode.oneAtATime⟩, 0⟩

def cfgC1 : AgentCfg := ⟨1, [], Option.none, Option.none⟩

/-- A provider that always answers tool-free. -/
def provC1 : Provider := fun _ => ⟨"hi", []⟩

/-- Provider calls made by a finished turn. -/
def turnCalls (r : Except String (AgentSt × Response × List String)) : Nat :=
  match r with
  | Except.ok (st, _, _) => st.calls
  | Except.error _ => 0

/-- C1 counterexample: with `max_iterations = 1` and one queued follow-up,
the turn (`run("A")` plus its chained follow-up `run("B")`, the spec's
definition of a turn) makes 2 provider calls — the follow-up re-enters `run`
with a fresh budget, so the number of provider calls in a turn is *not*
bounded by `max_iterations`. -/
theorem claim_C1_counterexample :
    cfgC1.max_iterations = 1 ∧
    turnCalls (Agent.run cfgC1 provC1 "A" true stC1) = 2 := by
  constructor
  · rfl
  · rfl

def cfgC1w : AgentCfg := ⟨1, [], Option.none, Option.none⟩

/-- A provider that always requests an unknown tool, so no tool-free
response ever arrives. -/
def provC1w : Provider := fun _ => ⟨"", [⟨"t1", "nope", []⟩]⟩

/-- The loop state after the single iteration `cfgC1w` allows. -/
def stLoopC1w : AgentSt :=
  ⟨[⟨"user", "go", MsgMeta.none⟩,
    ⟨"assistant", "", MsgMeta.toolCalls [⟨"t1", "nope", []⟩]⟩,
    ⟨"tool", "Error: " ++ "\"Tool '" ++ "nope" ++ "' not found in registry\"",
      MsgMeta.toolMsg "t1" "nope"⟩],
   MessageQueue.init, 1⟩

/-- C1 witness: the amended statement applied at a concrete configuration —
the loop stays within the budget, the clean turn stays within the budget,
and the exhausted budget yields exactly the fixed assistant message. -/
theorem claim_C1_witness :
    stLoopC1w.calls ≤ stEmpty.calls + 1 ∧
    turnCalls (Agent.run cfgC1w provC1w "go" true stEmpty) ≤ stEmpty.calls + cfgC1w.max_iterations ∧
    Agent.run cfgC1w provC1w "go" true stEmpty =
      Except.ok
        ({ stLoopC1w with history := stLoopC1w.history ++
            [⟨"assistant", "Maximum iterations reached without completion.", MsgMeta.none⟩] },
         ⟨"Maximum iterations reached without completion.", []⟩,
         ["go"]) := by
  have hloop : runLoop cfgC1w provC1w true cfgC1w.max_iterations
      { stEmpty with history := stEmpty.history ++ [⟨"user", "go", MsgMeta.none⟩] } =
      Except.ok (stLoopC1w, Option.none) := by rfl
  have hrun := claim_C1_amended.2.2 cfgC1w provC1w "go" true stEmpty stLoopC1w hloop
  refine ⟨claim_C1_amended.1 cfgC1w provC1w true 1
    { stEmpty with history := stEmpty.history ++ [⟨"user", "go", MsgMeta.none⟩] }
    (stLoopC1w, Option.none) hloop, ?_, hrun⟩
  have h2 := claim_C1_amended.2.1 cfgC1w provC1w "go" true stEmpty _ rfl hrun
  rw [hrun]
  exact h2

/-! ## Claim C10 — follow-up drain drops the tail -/

/-- C10: in the default one-at-a-time mode, when the loop reaches a
tool-free response with `check_queue` and at least two follow-ups queued,
exactly one nested `run` happens, on the first follow-up's content; the
final history gains only the four messages of the two completed turns
(none of the later follow-ups are ever appended), and the final queue
retains no follow-up message — the tail of the follow-up FIFO has been
removed and discarded. -/
theorem claim_C10_followup_tail_dropped
    (cfg : AgentCfg) (provider : Provider) (st : AgentSt) (msg : String)
    (k : Nat) (hmax : cfg.max_iterations = k + 1)
    (hprov : ∀ n, (provider n).tool_calls = [])
    (hmode : st.queue.followup_mode = DrainMode.oneAtATime)
    (f1 f2 : QueuedMessage) (fs : List QueuedMessage)
    (hfu : st.queue.queue.filter (fun m => m.type == MessageType.followup) =
      f1 :: f2 :: fs) :
    Agent.run cfg provider msg true st =
      Except.ok
        (⟨st.history ++
            [⟨"user", msg, MsgMeta.none⟩,
             ⟨"assistant", (provider st.calls).content, MsgMeta.none⟩,
             ⟨"user", f1.content, MsgMeta.none⟩,
             ⟨"assistant", (provider (st.calls + 1)).content, MsgMeta.none⟩],
          { st.queue with
            queue := st.queue.queue.filter (fun m => !(m.type == MessageType.followup)) },
          st.calls + 2⟩,
         provider (st.calls + 1),
         [msg, f1.content]) := by
  obtain ⟨n, hn⟩ : ∃ n, st.queue.queue.length = n + 2 := by
    have hle := List.length_filter_le (fun m => m.type == MessageType.followup) st.queue.queue
    rw [hfu] at hle
    simp only [List.length_cons] at hle
    exact ⟨st.queue.queue.length - 2, by omega⟩
  have hhas : st.queue.has_followup = true := by
    have hx : f1 ∈ st.queue.queue.filter (fun m => m.type == MessageType.followup) := by
      rw [hfu]
      exact List.mem_cons_self f1 (f2 :: fs)
    rw [List.mem_filter] at hx
    exact List.any_eq_true.mpr ⟨f1, hx.1, hx.2⟩
  have hdrain : st.queue.get_followup_messages =
      ([f1], { st.queue with
        queue := st.queue.queue.filter (fun m => !(m.type == MessageType.followup)) }) := by
    simp only [MessageQueue.get_followup_messages, hmode, hfu]
    rfl
  have hq' : (MessageQueue.mk
      (st.queue.queue.filter (fun m => !(m.type == MessageType.followup)))
      st.queue.steering_mode st.queue.followup_mode).has_followup = false :=
    any_followup_filter_not_followup st.queue.queue
  have hloop1 : runLoop cfg provider true cfg.max_iterations
      { st with history := st.history ++ [⟨"user", msg, MsgMeta.none⟩] } =
      Except.ok
        (⟨(st.history ++ [⟨"user", msg, MsgMeta.none⟩]) ++
            [⟨"assistant", (provider st.calls).content, MsgMeta.none⟩],
          st.queue, st.calls + 1⟩,
         Option.some (provider st.calls)) := by
    rw [hmax]
    exact runLoop_toolfree cfg provider true k _ (hprov _)
  have hloop2 : runLoop cfg provider true cfg.max_iterations
      (⟨((st.history ++ [⟨"user", msg, MsgMeta.none⟩]) ++
          [⟨"assistant", (provider st.calls).content, MsgMeta.none⟩]) ++
          [⟨"user", f1.content, MsgMeta.none⟩],
        MessageQueue.mk
          (st.queue.queue.filter (fun m => !(m.type == MessageType.followup)))
          st.queue.steering_mode st.queue.followup_mode,
        st.calls + 1⟩ : AgentSt) =
      Except.ok
        (⟨(((st.history ++ [⟨"user", msg, MsgMeta.none⟩]) ++
            [⟨"assistant", (provider st.calls).content, MsgMeta.none⟩]) ++
            [⟨"user", f1.content, MsgMeta.none⟩]) ++
            [⟨"assistant", (provider (st.calls + 1)).content, MsgMeta.none⟩],
          MessageQueue.mk
            (st.queue.queue.filter (fun m => !(m.type == MessageType.followup)))
            st.queue.steering_mode st.queue.followup_mode,
          st.calls + 1 + 1⟩,
         Option.some (provider (st.calls + 1))) := by
    rw [hmax]
    exact runLoop_toolfree cfg provider true k _ (hprov _)
  have hinner : runFuel cfg provider (n + 2) f1.content true
      (⟨(st.history ++ [⟨"user", msg, MsgMeta.none⟩]) ++
          [⟨"assistant", (provider st.calls).content, MsgMeta.none⟩],
        MessageQueue.mk
          (st.queue.queue.filter (fun m => !(m.type == MessageType.followup)))
          st.queue.steering_mode st.queue.followup_mode,
        st.calls + 1⟩ : AgentSt) =
      Except.ok
        (⟨(((st.history ++ [⟨"user", msg, MsgMeta.none⟩]) ++
            [⟨"assistant", (provider st.calls).content, MsgMeta.none⟩]) ++
            [⟨"user", f1.content, MsgMeta.none⟩]) ++
            [⟨"assistant", (provider (st.calls + 1)).content, MsgMeta.none⟩],
          MessageQueue.mk
            (st.queue.queue.filter (fun m => !(m.type == MessageType.followup)))
            st.queue.steering_mode st.queue.followup_mode,
          st.calls + 1 + 1⟩,
         provider (st.calls + 1),
         [f1.content]) := by
    rw [show n + 2 = (n + 1) + 1 from rfl]
    conv_lhs => rw [runFuel]
    simp only [hloop2, hq', Bool.false_eq_true, and_false, if_false]
  unfold Agent.run
  rw [hn]
  conv_lhs => rw [runFuel]
  simp only [hloop1, hhas, and_self, if_true, hdrain, hinner]
  simp [List.append_assoc]

def cfgC10 : AgentCfg := ⟨1, [], Option.none, Option.none⟩

def provC10 : Provider := fun _ => ⟨"ok", []⟩

/-- Two queued follow-ups `"F1"`, `"F2"`. -/
def stC10 : AgentSt :=
  ⟨[], ⟨[⟨"F1", MessageType.followup⟩, ⟨"F2", MessageType.followup⟩],
    DrainMode.oneAtATime, DrainMode.oneAtATime⟩, 0⟩

/-- C10 witness: with follow-ups `"F1"`, `"F2"` queued, only `"F1"` is run
as a nested turn; `"F2"` is gone from the queue and never reaches the
history. -/
theorem claim_C10_witness :
    Agent.run cfgC10 provC10 "A" true stC10 =
      Except.ok
        (⟨[⟨"user", "A", MsgMeta.none⟩, ⟨"assistant", "ok", MsgMeta.none⟩,
           ⟨"user", "F1", MsgMeta.none⟩, ⟨"assistant", "ok", MsgMeta.none⟩],
          ⟨[], DrainMode.oneAtATime, DrainMode.oneAtATime⟩, 2⟩,
         ⟨"ok", []⟩,
         ["A", "F1"]) :=
  claim_C10_followup_tail_dropped cfgC10 provC10 stC10 "A" 0 rfl (fun _ => rfl) rfl
    ⟨"F1", MessageType.followup⟩ ⟨"F2", MessageType.followup⟩ [] (by decide)

/-! ## Claim C3 — JSONL round trip -/

lemma dinsert_fresh (l : List SessionEntry) (e : SessionEntry)
    (h : ∀ x ∈ l, ¬ (x.id = e.id)) : dinsert l e = l ++ [e] := by
  unfold dinsert
  rw [if_neg]
  simp only [List.any_eq_true, beq_iff_eq, not_exists]
  rintro x ⟨hx, hid⟩
  exact h x hx hid

lemma from_jsonl_fold_entries (lines : List SessionEntry) :
    ∀ (t : SessionTree),
      (∀ e ∈ lines, ∀ x ∈ t.entries, ¬ (x.id = e.id)) →
      ((lines.map (fun e => e.id)).Nodup) →
      (lines.foldl
        (fun (t : SessionTree) e =>
          { t with
            entries := dinsert t.entries e,
            root_id := if e.parent_id = Option.none then Option.some e.id else t.root_id })
        t).entries = t.entries ++ lines := by
  induction lines with
  | nil =>
    intro t _ _
    simp
  | cons e rest ih =>
    intro t hfr hnd
    have hde : dinsert t.entries e = t.entries ++ [e] :=
      dinsert_fresh t.entries e (fun x hx => hfr e (List.mem_cons_self e rest) x hx)
    simp only [List.foldl_cons]
    rw [ih _ ?_ ?_]
    · simp [hde, List.append_assoc]
    · intro e' he' x hx
      simp only [hde] at hx
      rcases List.mem_append.mp hx with hx | hx
      · exact hfr e' (List.mem_cons_of_mem e he') x hx
      · rcases List.mem_singleton.mp hx with rfl
        simp only [List.map_cons, List.nodup_cons] at hnd
        intro hid
        exact hnd.1 (hid ▸ List.mem_map_of_mem (fun e => e.id) he')
    · simp only [List.map_cons, List.nodup_cons] at hnd
      exact hnd.2

lemma foldl_max_timestamp (es : List SessionEntry) :
    ∀ e : SessionEntry,
      (es.foldl (fun best x => if best.timestamp < x.timestamp then x else best) e = e ∨
        es.foldl (fun best x => if best.timestamp < x.timestamp then x else best) e ∈ es) ∧
      e.timestamp ≤
        (es.foldl (fun best x => if best.timestamp < x.timestamp then x else best) e).timestamp ∧
      ∀ x ∈ es, x.timestamp ≤
        (es.foldl (fun best x => if best.timestamp < x.timestamp then x else best) e).timestamp := by
  induction es with
  | nil =>
    intro e
    exact ⟨Or.inl rfl, le_refl _, fun x hx => absurd hx (List.not_mem_nil x)⟩
  | cons x es ih =>
    intro e
    simp only [List.foldl_cons]
    obtain ⟨hmem, hseed, hall⟩ := ih (if e.timestamp < x.timestamp then x else e)
    have hex : e.timestamp ≤ (if e.timestamp < x.timestamp then x else e).timestamp := by
      split <;> omega
    have hxx : x.timestamp ≤ (if e.timestamp < x.timestamp then x else e).timestamp := by
      split <;> omega
    refine ⟨?_, le_trans hex hseed, ?_⟩
    · rcases hmem with hm | hm
      · rw [hm]
        split
        · exact Or.inr (List.mem_cons_self x es)
        · exact Or.inl rfl
      · exact Or.inr (List.mem_cons_of_mem x hm)
    · intro y hy
      rcases List.mem_cons.mp hy with rfl | hy
      · exact le_trans hxx hseed
      · exact hall y hy

lemma maxByTimestamp_spec (l : List SessionEntry) (hne : l ≠ []) :
    ∃ m, maxByTimestamp l = Option.some m ∧ m ∈ l ∧
      ∀ x ∈ l, x.timestamp ≤ m.timestamp := by
  cases l with
  | nil => exact absurd rfl hne
  | cons e es =>
    obtain ⟨hmem, hseed, hall⟩ := foldl_max_timestamp es e
    refine ⟨_, rfl, ?_, ?_⟩
    · rcases hmem with hm | hm
      · rw [hm]
        exact List.mem_cons_self e es
      · exact List.mem_cons_of_mem e hm
    · intro x hx
      rcases List.mem_cons.mp hx with rfl | hx
      · exact hseed
      · exact hall x hx

/-- C3: when the entries have pairwise-distinct ids (uuid4 guarantees this),
`load (save S)` restores exactly the same entry list — equal ids, parent
ids, timestamps, roles, contents and metadata — and the restored `current`
pointer references an entry of maximal timestamp (for an empty tree it is
null). -/
theorem claim_C3_jsonl_roundtrip (S : Session)
    (hnd : (S.tree.entries.map (fun e => e.id)).Nodup) :
    ((Session.load (Session.save S)).tree.entries = S.tree.entries) ∧
    (S.tree.entries = [] →
      (Session.load (Session.save S)).tree.current_id = Option.none) ∧
    (S.tree.entries ≠ [] →
      ∃ m ∈ S.tree.entries,
        (Session.load (Session.save S)).tree.current_id = Option.some m.id ∧
        ∀ x ∈ S.tree.entries, x.timestamp ≤ m.timestamp) := by
  have hentries : (SessionTree.from_jsonl S.tree.entries).entries = S.tree.entries := by
    unfold SessionTree.from_jsonl
    have := from_jsonl_fold_entries S.tree.entries SessionTree.init
      (fun e _ x hx => absurd hx (List.not_mem_nil x)) hnd
    simpa [SessionTree.init] using this
  have hload : (Session.load (Session.save S)).tree = SessionTree.from_jsonl S.tree.entries := rfl
  have hcur : (SessionTree.from_jsonl S.tree.entries).current_id =
      Option.map (fun e => e.id)
        (maxByTimestamp ((SessionTree.from_jsonl S.tree.entries).entries)) := rfl
  refine ⟨by rw [hload, hentries], ?_, ?_⟩
  · intro hemp
    rw [hload, hcur, hentries, hemp]
    rfl
  · intro hne
    obtain ⟨m, hm, hmem, hmax⟩ := maxByTimestamp_spec S.tree.entries hne
    refine ⟨m, hmem, ?_, hmax⟩
    rw [hload, hcur, hentries, hm]
    rfl

/-- A two-entry session (current at `"b"`; `"a"` has the later timestamp). -/
def sessC3 : Session :=
  ⟨"sid", "s", 0, 0, [], true,
   ⟨[⟨"a", Option.none, 5, "system", "hello", []⟩,
     ⟨"b", Option.some "a", 3, "user", "hi", []⟩],
    Option.some "b", Option.some "a"⟩⟩

/-- C3 witness: the round trip at the concrete session. -/
theorem claim_C3_witness :
    ((Session.load (Session.save sessC3)).tree.entries = sessC3.tree.entries) ∧
    (∃ m ∈ sessC3.tree.entries,
      (Session.load (Session.save sessC3)).tree.current_id = Option.some m.id ∧
      ∀ x ∈ sessC3.tree.entries, x.timestamp ≤ m.timestamp) := by
  have h := claim_C3_jsonl_roundtrip sessC3 (by decide)
  exact ⟨h.1, h.2.2 (List.cons_ne_nil _ _)⟩

/-! ## Claim C5 — compaction -/

lemma find?_append_single (l : List SessionEntry) (e : SessionEntry) (i : String) :
    (l ++ [e]).find? (fun x => x.id == i) =
      match l.find? (fun x => x.id == i) with
      | Option.some x => Option.some x
      | Option.none => if e.id == i then Option.some e else Option.none := by
  induction l with
  | nil =>
    simp only [List.nil_append, List.find?_nil]
    cases h : (e.id == i) <;> simp [List.find?_cons, h]
  | cons y l ih =>
    cases hy : (y.id == i) <;> simp [List.find?_cons, hy, ih]

lemma walk_succ (t : SessionTree) (fuel : Nat) (i : String) :
    walk t (fuel + 1) (Option.some i) =
      match t.lookup i with
      | Option.none => Option.some []
      | Option.some e => (walk t fuel e.parent_id).map (· ++ [e]) := rfl

lemma walk_succ_found (t : SessionTree) (fuel : Nat) (i : String)
    (e : SessionEntry) (h : t.lookup i = Option.some e) :
    walk t (fuel + 1) (Option.some i) =
      (walk t fuel e.parent_id).map (· ++ [e]) := by
  rw [walk_succ, h]

lemma walk_succ_missing (t : SessionTree) (fuel : Nat) (i : String)
    (h : t.lookup i = Option.none) :
    walk t (fuel + 1) (Option.some i) = Option.some [] := by
  rw [walk_succ, h]

lemma tree_lookup_eq (t t' : SessionTree) (e : SessionEntry)
    (hent : t'.entries = t.entries ++ [e]) (i : String) (hne : ¬ (i = e.id)) :
    t'.lookup i = t.lookup i := by
  unfold SessionTree.lookup
  rw [hent, find?_append_single]
  cases h : t.entries.find? (fun x => x.id == i) with
  | some x => rfl
  | none =>
    rw [if_neg]
    simp only [beq_iff_eq]
    exact fun h' => hne h'.symm

lemma get_current_path_some (t : SessionTree) (c : String)
    (hc : t.current_id = Option.some c) :
    t.get_current_path = (walk t (t.entries.length + 1) (Option.some c)).getD [] := by
  unfold SessionTree.get_current_path
  rw [hc]
  rfl

/-- Appending an entry whose id is referenced nowhere in the tree leaves
every walk that does not start at it unchanged. -/
lemma walk_append_fresh (t t' : SessionTree) (e : SessionEntry)
    (hent : t'.entries = t.entries ++ [e])
    (hfr : ∀ x ∈ t.entries, ¬ (x.id = e.id) ∧ ¬ (x.parent_id = Option.some e.id)) :
    ∀ (fuel : Nat) (cur : Option String), cur ≠ Option.some e.id →
      walk t' fuel cur = walk t fuel cur := by
  intro fuel
  induction fuel with
  | zero =>
    intro cur hcur
    cases cur <;> rfl
  | succ n ih =>
    intro cur hcur
    cases cur with
    | none => rfl
    | some i =>
      have hine : ¬ (i = e.id) := fun h => hcur (by rw [h])
      have hlk : t'.lookup i = t.lookup i := tree_lookup_eq t t' e hent i hine
      cases hl : t.lookup i with
      | none =>
        rw [walk_succ_missing t' n i (hlk.trans hl), walk_succ_missing t n i hl]
      | some x =>
        have hxmem : x ∈ t.entries := List.mem_of_find?_eq_some hl
        have hpar : ¬ (x.parent_id = Option.some e.id) := (hfr x hxmem).2
        rw [walk_succ_found t' n i x (hlk.trans hl), walk_succ_found t n i x hl,
          ih x.parent_id hpar]

/-- After appending a fresh entry `E` as a child of `current = c`, the
current path is the old path followed by `E`. -/
lemma path_after_append (t : SessionTree) (E : SessionEntry)
    (r : Option String) (c : String) (p : List SessionEntry)
    (hpar : E.parent_id = Option.some c)
    (hfr : ∀ x ∈ t.entries, ¬ (x.id = E.id) ∧ ¬ (x.parent_id = Option.some E.id))
    (hcn : ¬ (c = E.id))
    (hwalk : walk t (t.entries.length + 1) (Option.some c) = Option.some p) :
    (SessionTree.mk (t.entries ++ [E]) (Option.some E.id) r).get_current_path =
      p ++ [E] := by
  have hent : (SessionTree.mk (t.entries ++ [E]) (Option.some E.id) r).entries =
      t.entries ++ [E] := rfl
  have hlookup : (SessionTree.mk (t.entries ++ [E]) (Option.some E.id) r).lookup E.id =
      Option.some E := by
    unfold SessionTree.lookup
    rw [show (SessionTree.mk (t.entries ++ [E]) (Option.some E.id) r).entries =
        t.entries ++ [E] from rfl]
    rw [find?_append_single]
    rw [List.find?_eq_none.mpr (fun x hx => by simpa using (hfr x hx).1)]
    simp
  rw [get_current_path_some _ E.id rfl]
  rw [show (SessionTree.mk (t.entries ++ [E]) (Option.some E.id) r).entries.length =
      t.entries.length + 1 from by simp]
  rw [walk_succ_found _ _ _ E hlookup, hpar]
  rw [walk_append_fresh t (SessionTree.mk (t.entries ++ [E]) (Option.some E.id) r) E
    rfl hfr (t.entries.length + 1) (Option.some c)
    (fun h => hcn (by injection h))]
  rw [hwalk]
  rfl

/-- C5 (amended): when the current path `p` is longer than 10, `compact`
creates one synthetic `system` entry (child of `current`) whose metadata —
nested under a `"metadata"` key by the `**metadata` kwargs of `add_message`
— records `compacted = true` and the original prefix length, and *returns*
that entry followed by the last 5 entries of `p`.  The prefix entries stay
in the tree; but the tree's current path afterwards is the *whole* original
path followed by the synthetic entry, so later effective-path queries still
include the prefix (it is only compact's return value that substitutes). -/
theorem claim_C5_compact (S : Session) (instructions : Option String)
    (newId : String) (now : Nat) (p : List SessionEntry)
    (hp : S.tree.get_current_path = p)
    (hlen : 10 < p.length)
    (hfr : ∀ x ∈ S.tree.entries,
      ¬ (x.id = newId) ∧ ¬ (x.parent_id = Option.some newId)) :
    ∃ newEntry : SessionEntry,
      newEntry = ⟨newId, S.tree.current_id, now, "system",
        "[Compacted " ++ toString (p.length - 5) ++ " messages]\n" ++
          (match instructions with
           | Option.some i => "Instructions: " ++ i ++ "\n"
           | Option.none => "") ++
          "Topics covered: " ++
            toString ((p.take (p.length - 5)).map (fun e => e.role)).eraseDups.length ++
            " roles",
        [("metadata", JsonVal.obj
          [("compacted", JsonVal.bool true),
           ("original_count", JsonVal.num ((p.length - 5 : Nat) : Int))])]⟩ ∧
      (S.compact instructions newId now).1 = newEntry :: p.drop (p.length - 5) ∧
      ((S.compact instructions newId now).2).tree.entries =
        S.tree.entries ++ [newEntry] ∧
      ((S.compact instructions newId now).2).tree.get_current_path =
        p ++ [newEntry] := by
  have hpne : p ≠ [] := by
    intro h
    rw [h] at hlen
    simp at hlen
  obtain ⟨c, hc⟩ : ∃ c, S.tree.current_id = Option.some c := by
    cases hcc : S.tree.current_id with
    | none =>
      exfalso
      apply hpne
      rw [← hp]
      unfold SessionTree.get_current_path
      rw [hcc]
    | some c => exact ⟨c, rfl⟩
  have hpd : (walk S.tree (S.tree.entries.length + 1) (Option.some c)).getD [] = p := by
    rw [← get_current_path_some S.tree c hc]
    exact hp
  have hwalk : walk S.tree (S.tree.entries.length + 1) (Option.some c) =
      Option.some p := by
    cases hw : walk S.tree (S.tree.entries.length + 1) (Option.some c) with
    | none =>
      rw [hw] at hpd
      simp at hpd
      exact (hpne hpd).elim
    | some q =>
      rw [hw] at hpd
      simp at hpd
      rw [hpd]
  have hcn : ¬ (c = newId) := by
    intro heq
    cases hl : S.tree.lookup c with
    | none =>
      have h2 : walk S.tree (S.tree.entries.length + 1) (Option.some c) =
          Option.some [] := walk_succ_missing S.tree _ c hl
      rw [hwalk] at h2
      injection h2 with h3
      exact hpne h3
    | some x =>
      have hxm : x ∈ S.tree.entries := List.mem_of_find?_eq_some hl
      have hxid : x.id = c := by
        have := List.find?_some hl
        simpa using this
      exact (hfr x hxm).1 (hxid.trans heq)
  have holdlen : (p.take (p.length - 5)).length = p.length - 5 := by
    rw [List.length_take, min_eq_left (by omega)]
  -- the synthetic entry exactly as `add_entry` builds it
  refine ⟨⟨newId, S.tree.current_id, now, "system",
    "[Compacted " ++ toString (p.length - 5) ++ " messages]\n" ++
      (match instructions with
       | Option.some i => "Instructions: " ++ i ++ "\n"
       | Option.none => "") ++
      "Topics covered: " ++
        toString ((p.take (p.length - 5)).map (fun e => e.role)).eraseDups.length ++
        " roles",
    [("metadata", JsonVal.obj
      [("compacted", JsonVal.bool true),
       ("original_count", JsonVal.num ((p.length - 5 : Nat) : Int))])]⟩, rfl, ?_, ?_, ?_⟩
  case _ =>
    unfold Session.compact Session.add_message SessionTree.add_entry
      Session.get_current_conversation
    rw [hp, if_neg (by omega)]
    simp only [holdlen]
  case _ =>
    unfold Session.compact Session.add_message SessionTree.add_entry
      Session.get_current_conversation
    rw [hp, if_neg (by omega)]
    simp only [holdlen]
    exact dinsert_fresh S.tree.entries _ (fun x hx => (hfr x hx).1)
  case _ =>
    unfold Session.compact Session.add_message SessionTree.add_entry
      Session.get_current_conversation
    rw [hp, if_neg (by omega)]
    simp only [holdlen]
    rw [dinsert_fresh S.tree.entries _ (fun x hx => (hfr x hx).1)]
    exact path_after_append S.tree _ _ c p hc hfr hcn hwalk

/-- A linear 11-entry conversation. -/
def entC5 : List SessionEntry :=
  [⟨"e0", Option.none, 0, "user", "m", []⟩,
   ⟨"e1", Option.some "e0", 1, "user", "m", []⟩,
   ⟨"e2", Option.some "e1", 2, "user", "m", []⟩,
   ⟨"e3", Option.some "e2", 3, "user", "m", []⟩,
   ⟨"e4", Option.some "e3", 4, "user", "m", []⟩,
   ⟨"e5", Option.some "e4", 5, "user", "m", []⟩,
   ⟨"e6", Option.some "e5", 6, "user", "m", []⟩,
   ⟨"e7", Option.some "e6", 7, "user", "m", []⟩,
   ⟨"e8", Option.some "e7", 8, "user", "m", []⟩,
   ⟨"e9", Option.some "e8", 9, "user", "m", []⟩,
   ⟨"e10", Option.some "e9", 10, "user", "m", []⟩]

def sessC5 : Session :=
  ⟨"sid", "s", 0, 0, [], false, ⟨entC5, Option.some "e10", Option.some "e0"⟩⟩

/-- C5 witness: the amended statement at the concrete 11-entry session. -/
theorem claim_C5_witness :
    ∃ newEntry : SessionEntry,
      (sessC5.compact Option.none "c" 11).1 = newEntry :: entC5.drop 6 ∧
      ((sessC5.compact Option.none "c" 11).2).tree.entries = entC5 ++ [newEntry] ∧
      ((sessC5.compact Option.none "c" 11).2).tree.get_current_path =
        entC5 ++ [newEntry] := by
  obtain ⟨E, hE, h1, h2, h3⟩ :=
    claim_C5_compact sessC5 Option.none "c" 11 entC5 rfl (by decide) (by decide)
  exact ⟨E, h1, h2, h3⟩

/-- C5 counterexample: after `compact` on the 11-entry session, the claim
says the effective path returned for later LLM submission is the 6-entry
list `compact` returned; but `get_current_path` now has 12 entries — the
original prefix is still part of every subsequent effective path. -/
theorem claim_C5_counterexample :
    ¬ (((sessC5.compact Option.none "c" 11).2).tree.get_current_path =
        (sessC5.compact Option.none "c" 11).1) := by
  intro h
  have h12 : (((sessC5.compact Option.none "c" 11).2).tree.get_current_path).length = 12 := by
    rfl
  have h6 : ((sessC5.compact Option.none "c" 11).1).length = 6 := by
    rfl
  rw [h, h6] at h12
  exact absurd h12 (by decide)

end PyMono
